import Mathlib

/-!
Verification of the MotorLog server core (src/server/server.js) against its
specification.  The downsampling SQL pipeline of `GET /api/motor-logs`
(temp table `#FilteredData` with a `LAG` previous-state column, the fast
path for small result sets, the `Bucketed` / `Ranked` / `SelectedIds`
CTEs and the final ordered selection), the metadata cache `getCached`
(lines 49-69), the `targetPoints` clamping of the route handler
(line 185) and the live-window endpoint `GET /api/motor-logs-latest`
are embedded shallowly below, and the specification's claims are proved
or refuted about that embedding.

Conventions of the embedding:
* timestamps are naturals counted in seconds (the SQL works at second
  granularity through `DATEDIFF(SECOND, ...)`);
* SQL `FLOAT` quantities (`MotorCurrent`, `@DurationSeconds`) are
  rationals, and `CAST(... AS INT)` of the nonnegative bucket quotient
  is the floor;
* `ROW_NUMBER` ties (equal timestamps, equal currents) are resolved by
  first occurrence in timestamp order, the deterministic refinement of
  the SQL's unspecified tie order;
* the JavaScript cache is a state machine: each `getCached` call body
  runs atomically on the single event-loop thread up to returning a
  promise, and a fetch settling is a separate atomic step.
-/

/-- One row of `dbo.MotorLogs` as selected into `#FilteredData`
(server.js lines 236-249), minus the derived `PrevState` column. -/
structure MotorLog where
  id : Nat
  timestamp : Nat
  motorName : String
  zone : String
  line : String
  productionWeek : String
  maxCurrentLimit : ℚ
  motorCurrent : ℚ
  isMotorOn : Bool
  avgCurrent : ℚ
  runningTime : ℚ
deriving DecidableEq, Repr

/-- Timestamp order used by every `ORDER BY [Timestamp]` in the query. -/
def tsLE (a b : MotorLog) : Prop := a.timestamp ≤ b.timestamp

instance : DecidableRel tsLE := fun a b => inferInstanceAs (Decidable (a.timestamp ≤ b.timestamp))

instance : IsTotal MotorLog tsLE := ⟨fun a b => Nat.le_total a.timestamp b.timestamp⟩

instance : IsTrans MotorLog tsLE := ⟨fun _ _ _ h h' => Nat.le_trans h h'⟩

/-- Sorting by ascending timestamp, the order the SQL materializes with
`ORDER BY [Timestamp] ASC`; a stable sort, which is the deterministic
refinement used for the window functions' tie order. -/
def sortByTs (l : List MotorLog) : List MotorLog := List.insertionSort tsLE l

/-- `CAST([IsMotorOn] AS INT)`: the bit as an integer. -/
def stateInt (b : Bool) : Int := if b then 1 else 0

/-- Pair every point with the preceding point's state, starting from a
given default: `LAG(CAST([IsMotorOn] AS INT), 1, -1) OVER (ORDER BY
[Timestamp])` running down an already timestamp-sorted list. -/
def withPrev : Int → List MotorLog → List (MotorLog × Int)
  | _, [] => []
  | prev, p :: rest => (p, prev) :: withPrev (stateInt p.isMotorOn) rest

/-- The `#FilteredData` temp table (server.js lines 251-270): the rows of
the series in timestamp order, each with its `PrevState` column, the
first row receiving the sentinel `-1`. -/
def filteredData (l : List MotorLog) : List (MotorLog × Int) :=
  withPrev (-1) (sortByTs l)

/-- Ids selected by the state-change branch of `SelectedIds`
(line 325): `SELECT [Id] FROM Bucketed WHERE CAST([IsMotorOn] AS INT) <>
PrevState`. -/
def stateChangeIds (l : List MotorLog) : List Nat :=
  ((filteredData l).filter (fun pp => stateInt pp.1.isMotorOn != pp.2)).map (fun pp => pp.1.id)

/-- `@Buckets` (lines 298-299): `floor(targetPoints / 3)`, raised to `1`
when below `1`. -/
def bucketCount (targetPoints : Nat) : Nat := max 1 (targetPoints / 3)

/-- `MIN([Timestamp])` over the filtered rows (`@StartTime`, line 305);
`0` on the empty series, which the downsampling branch never reaches. -/
def minTs : List MotorLog → Nat
  | [] => 0
  | [p] => p.timestamp
  | p :: q :: rest => min p.timestamp (minTs (q :: rest))

/-- `MAX([Timestamp])` over the filtered rows (`@EndTime`, line 305). -/
def maxTs : List MotorLog → Nat
  | [] => 0
  | [p] => p.timestamp
  | p :: q :: rest => max p.timestamp (maxTs (q :: rest))

/-- `@DurationSeconds` (lines 306-307): `DATEDIFF(SECOND, @StartTime,
@EndTime)` as a float, replaced by `1` when not positive. -/
def durationSeconds (l : List MotorLog) : ℚ :=
  if ((maxTs l : ℚ) - (minTs l : ℚ)) ≤ 0 then 1 else (maxTs l : ℚ) - (minTs l : ℚ)

/-- `BucketId` of the `Bucketed` CTE (line 312): `CAST(DATEDIFF(SECOND,
@StartTime, [Timestamp]) / (@DurationSeconds / @Buckets) AS INT)`; the
quotient is nonnegative for rows of the series, so the `INT` cast
truncating toward zero is the floor. -/
def bucketId (l : List MotorLog) (targetPoints : Nat) (p : MotorLog) : Nat :=
  (⌊((p.timestamp : ℚ) - (minTs l : ℚ)) / (durationSeconds l / (bucketCount targetPoints : ℚ))⌋).toNat

/-- The distinct `BucketId` values occurring in the series, in order of
first appearance. -/
def bucketIdsOf (l : List MotorLog) (targetPoints : Nat) : List Nat :=
  ((sortByTs l).map (bucketId l targetPoints)).dedup

/-- The rows of one bucket, in timestamp order (the partition of the
`Ranked` CTE). -/
def bucketMembers (l : List MotorLog) (targetPoints : Nat) (b : Nat) : List MotorLog :=
  (sortByTs l).filter (fun p => bucketId l targetPoints p == b)

/-- The row with `RankMax = 1` among a bucket's rows: maximal
`MotorCurrent`, ties to the earliest row. -/
def pickMax : List MotorLog → Option MotorLog
  | [] => none
  | p :: rest => some (rest.foldl (fun acc q => if acc.motorCurrent < q.motorCurrent then q else acc) p)

/-- The row with `RankMin = 1` among a bucket's rows: minimal
`MotorCurrent`, ties to the earliest row. -/
def pickMin : List MotorLog → Option MotorLog
  | [] => none
  | p :: rest => some (rest.foldl (fun acc q => if q.motorCurrent < acc.motorCurrent then q else acc) p)

/-- Ids from the `RankFirst = 1` branch of `SelectedIds` (line 330). -/
def firstIds (l : List MotorLog) (targetPoints : Nat) : List Nat :=
  (bucketIdsOf l targetPoints).filterMap (fun b => ((bucketMembers l targetPoints b).head?).map (fun p => p.id))

/-- Ids from the `RankMax = 1` branch of `SelectedIds` (line 335). -/
def maxIds (l : List MotorLog) (targetPoints : Nat) : List Nat :=
  (bucketIdsOf l targetPoints).filterMap (fun b => (pickMax (bucketMembers l targetPoints b)).map (fun p => p.id))

/-- Ids from the `RankMin = 1` branch of `SelectedIds` (line 340). -/
def minIds (l : List MotorLog) (targetPoints : Nat) : List Nat :=
  (bucketIdsOf l targetPoints).filterMap (fun b => (pickMin (bucketMembers l targetPoints b)).map (fun p => p.id))

/-- The `SelectedIds` CTE (lines 323-341): the union of the state-change
ids with the first, max-current and min-current row of every bucket. -/
def selectedIds (l : List MotorLog) (targetPoints : Nat) : List Nat :=
  stateChangeIds l ++ firstIds l targetPoints ++ maxIds l targetPoints ++ minIds l targetPoints

/-- The whole `/api/motor-logs` result computation (lines 272-357):
when the filtered row count is within `targetPoints` every row is
returned in timestamp order (the `@TotalCount` fast path); otherwise the
rows whose `Id` lands in `SelectedIds` are returned in timestamp order. -/
def reduce (l : List MotorLog) (targetPoints : Nat) : List MotorLog :=
  if l.length ≤ targetPoints then sortByTs l
  else (sortByTs l).filter (fun p => (selectedIds l targetPoints).contains p.id)

/-- A resolved cache slot: what `metadataCache.set(key, { value, expires:
now + ttl })` stores (server.js line 60). -/
structure Entry (V : Type) where
  value : V
  expires : Nat
deriving DecidableEq, Repr

/-- An in-flight fetch as observed through the `inFlight` map: the shared
promise, identified by a serial number, together with the expiry the
entry will carry if the fetch succeeds (the enclosing call's `now + ttl`,
captured by the closure of line 60). -/
structure Pending where
  id : Nat
  expires : Nat
deriving DecidableEq, Repr

/-- The mutable state of the metadata cache (server.js lines 40-41):
the `metadataCache` and `inFlight` maps, a fresh-promise counter, and
the number of times any fetcher has been invoked. -/
structure CacheState (V : Type) where
  cache : String → Option (Entry V)
  inFlight : String → Option Pending
  nextId : Nat
  fetchCount : Nat

/-- The cache with both maps empty, before any request. -/
def emptyCache (V : Type) : CacheState V :=
  { cache := fun _ => none, inFlight := fun _ => none, nextId := 0, fetchCount := 0 }

/-- What one `getCached` call hands back to its caller: a cached value,
or the promise (by serial number) it awaits. -/
inductive GetResult (V : Type) where
  | cachedValue (v : V)
  | joined (id : Nat)
  | launched (id : Nat)
deriving DecidableEq, Repr

/-- The state after a `getCached` miss invokes its fetcher (lines
57-67): the fetcher has started (one more invocation), the promise is
recorded in `inFlight` under a fresh serial, the entry map is untouched. -/
def launchState (V : Type) (key : String) (ttl now : Nat) (s : CacheState V) : CacheState V :=
  { cache := s.cache,
    inFlight := fun k => if k = key then some ⟨s.nextId, now + ttl⟩ else s.inFlight k,
    nextId := s.nextId + 1,
    fetchCount := s.fetchCount + 1 }

/-- The miss continuation of `getCached` (lines 55-68): join an existing
in-flight promise for the key, or invoke the fetcher, record the new
promise in `inFlight`, and return it. -/
def missPath (V : Type) (key : String) (ttl now : Nat) (s : CacheState V) : CacheState V × GetResult V :=
  match s.inFlight key with
  | some pf => (s, GetResult.joined pf.id)
  | none => (launchState V key ttl now s, GetResult.launched s.nextId)

/-- One `getCached(key, ttl, fetcher)` call (lines 49-69), atomic on the
event loop: a hit with `hit.expires > now` returns the cached value;
otherwise the miss continuation runs. -/
def getStep (V : Type) (key : String) (ttl now : Nat) (s : CacheState V) : CacheState V × GetResult V :=
  match s.cache key with
  | some e => if now < e.expires then (s, GetResult.cachedValue e.value) else missPath V key ttl now s
  | none => missPath V key ttl now s

/-- How the backing fetch settles: with a value or with an error. -/
inductive FetchOutcome (V : Type) where
  | success (v : V)
  | failure
deriving DecidableEq, Repr

/-- The promise body settling (lines 57-65): on success the entry is
written with the captured expiry; in both cases `finally` removes the
key from `inFlight`.  The returned list is the resolution event: the
promise serial and the outcome every waiter of that promise observes. -/
def completeStep (V : Type) (key : String) (out : FetchOutcome V) (s : CacheState V) :
    CacheState V × List (Nat × FetchOutcome V) :=
  match s.inFlight key with
  | none => (s, [])
  | some pf =>
    ({ cache := fun k =>
         if k = key then
           match out with
           | FetchOutcome.success v => some ⟨v, pf.expires⟩
           | FetchOutcome.failure => s.cache k
         else s.cache k,
       inFlight := fun k => if k = key then none else s.inFlight k,
       nextId := s.nextId,
       fetchCount := s.fetchCount },
     [(pf.id, out)])

/-- The value a `getCached` call would return from cache at `now`, if
any: the guard of line 52. -/
def freshValue (V : Type) (s : CacheState V) (key : String) (now : Nat) : Option V :=
  match s.cache key with
  | some e => if now < e.expires then some e.value else none
  | none => none

/-- `n` back-to-back `getCached` calls for one key at one instant, no
fetch settling in between: the shape of `n` concurrent callers. -/
def runGets (V : Type) (key : String) (ttl now : Nat) : Nat → CacheState V → CacheState V × List (GetResult V)
  | 0, s => (s, [])
  | n + 1, s =>
    let r := getStep V key ttl now s
    let rest := runGets V key ttl now n r.1
    (rest.1, r.2 :: rest.2)

/-- The query parameters of `GET /api/motor-logs` that decide admission
and the point budget; `limit` is `none` when absent or not numeric
(`Number(...)` yields `NaN`). -/
structure MotorLogsQueryParams where
  zone : Option String
  line : Option String
  motor : Option String
  limit : Option Int
deriving DecidableEq, Repr

/-- `targetPoints` (line 185): `Math.max(100, Math.min(Number(limit) ||
5000, 20000))`; `Number` of an absent or non-numeric limit is `NaN` and
`NaN || 5000` and `0 || 5000` both fall back to `5000`. -/
def targetPointsOf (limit : Option Int) : Int :=
  max 100 (min (match limit with
    | none => 5000
    | some v => if v = 0 then 5000 else v) 20000)

/-- Admission of `GET /api/motor-logs` (lines 177-185): a 400 only when
`zone`, `line` or `motor` is missing, otherwise the clamped budget. -/
def motorLogsAdmission (q : MotorLogsQueryParams) : Except String Int :=
  if q.zone.isNone || q.line.isNone || q.motor.isNone then
    Except.error "zone, line, motor are required"
  else Except.ok (targetPointsOf q.limit)

/-- `GET /api/motor-logs-latest` (lines 383-402) applied to the rows of
the series: keep the rows with `[Timestamp] >= DATEADD(MINUTE,
-@minutes, GETDATE())`, i.e. timestamp at least `now` minus the window,
ordered by ascending timestamp; `now` and the window length are in
seconds. -/
def selectWindow (rows : List MotorLog) (now windowSeconds : Int) : List MotorLog :=
  sortByTs (rows.filter (fun p => decide (now - windowSeconds ≤ (p.timestamp : Int))))

/-- A sample row with the fixed identity key of one series. -/
def mkLog (i ts : Nat) (cur : ℚ) (b : Bool) : MotorLog :=
  ⟨i, ts, "M1", "Z1", "L1", "W1", 100, cur, b, cur, 0⟩

/-- Concrete series point at the minimum timestamp. -/
def cexP0 : MotorLog := mkLog 1 0 5 false

/-- Concrete series point at the maximum timestamp. -/
def cexP1 : MotorLog := mkLog 2 10 9 false

/-- A two-point series spanning ten seconds. -/
def cexL : List MotorLog := [cexP0, cexP1]

/-- A point that is off, then the motor switches on. -/
def wOff : MotorLog := mkLog 1 0 5 false

/-- The point at which the state flag flips to on. -/
def wOn : MotorLog := mkLog 2 10 9 true

/-- A two-point series with one state transition. -/
def wL : List MotorLog := [wOff, wOn]

/-- A valid identity with a negative `limit` parameter. -/
def c8q : MotorLogsQueryParams := ⟨some "Z1", some "L1", some "M1", some (-5)⟩

/-- A row stamped five seconds after the reference instant 100. -/
def lateLog : MotorLog := mkLog 7 105 3 true

/-- The cache after one miss for key `k` at instant 5 with ttl 10. -/
def c4s1 : CacheState Nat := (getStep Nat "k" 10 5 (emptyCache Nat)).1

/-- The cache after one miss for key `zones` at instant 1000, ttl 60. -/
def c5s1 : CacheState Nat := (getStep Nat "zones" 60 1000 (emptyCache Nat)).1

/-- The cache of `c5s1` after that fetch succeeds with value 7: the
entry for `zones` expires at 1060. -/
def c5s2 : CacheState Nat := (completeStep Nat "zones" (FetchOutcome.success 7) c5s1).1

/-- The cache after one miss for key `w` at instant 100, ttl 60. -/
def c6s1 : CacheState Nat := (getStep Nat "w" 60 100 (emptyCache Nat)).1

theorem mem_withPrev_head (init : Int) (p : MotorLog) (rest : List MotorLog) :
    (p, init) ∈ withPrev init (p :: rest) := by
  simp [withPrev]

theorem mem_withPrev_of_adjacent (init : Int) (pre post : List MotorLog) (a b : MotorLog) :
    (b, stateInt a.isMotorOn) ∈ withPrev init (pre ++ a :: b :: post) := by
  induction pre generalizing init with
  | nil => simp [withPrev]
  | cons q pre ih =>
    simp only [List.cons_append, withPrev, List.mem_cons]
    exact Or.inr (ih (stateInt q.isMotorOn))

theorem sortByTs_perm (l : List MotorLog) : List.Perm (sortByTs l) l :=
  List.perm_insertionSort tsLE l

theorem sortByTs_sorted (l : List MotorLog) : (sortByTs l).Pairwise tsLE :=
  List.sorted_insertionSort tsLE l

theorem mem_sortByTs (l : List MotorLog) (p : MotorLog) : p ∈ sortByTs l ↔ p ∈ l :=
  List.mem_insertionSort tsLE

theorem mem_reduce_of_downsampling (l : List MotorLog) (tp : Nat) (p : MotorLog)
    (hlen : tp < l.length) :
    p ∈ reduce l tp ↔ p ∈ l ∧ p.id ∈ selectedIds l tp := by
  unfold reduce
  rw [if_neg (Nat.not_le.mpr hlen)]
  simp [List.mem_filter, mem_sortByTs]

theorem stateInt_ne_of_ne (x y : Bool) (h : x ≠ y) : stateInt x ≠ stateInt y := by
  cases x <;> cases y <;> simp_all [stateInt]

theorem mem_stateChangeIds_of_adjacent (l : List MotorLog) (pre post : List MotorLog)
    (a b : MotorLog) (hs : sortByTs l = pre ++ a :: b :: post) (hne : a.isMotorOn ≠ b.isMotorOn) :
    b.id ∈ stateChangeIds l := by
  have hmem : (b, stateInt a.isMotorOn) ∈ filteredData l := by
    unfold filteredData
    rw [hs]
    exact mem_withPrev_of_adjacent (-1) pre post a b
  refine List.mem_map.mpr ⟨(b, stateInt a.isMotorOn), ?_, rfl⟩
  refine List.mem_filter.mpr ⟨hmem, ?_⟩
  simpa using stateInt_ne_of_ne b.isMotorOn a.isMotorOn (fun h => hne h.symm)

/-- Claim C1: on the downsampling path, every point whose state flag
differs from that of the immediately preceding point in the
timestamp-ascending order of the series belongs to the output of
`reduce`, whatever bucket it falls in. -/
theorem reduce_preserves_transitions (l : List MotorLog) (tp : Nat) (pre post : List MotorLog)
    (a b : MotorLog) (hlen : tp < l.length) (hs : sortByTs l = pre ++ a :: b :: post)
    (hne : a.isMotorOn ≠ b.isMotorOn) : b ∈ reduce l tp := by
  refine (mem_reduce_of_downsampling l tp b hlen).mpr ⟨?_, ?_⟩
  · rw [← mem_sortByTs, hs]
    simp
  · unfold selectedIds
    exact List.mem_append_left _ (List.mem_append_left _
      (List.mem_append_left _ (mem_stateChangeIds_of_adjacent l pre post a b hs hne)))

/-- Witness for C1: in the two-point series with the flag flipping at
the second point and budget 1, the flipping point is in the output. -/
theorem reduce_preserves_transitions_witness :
    1 < wL.length ∧ wOff.isMotorOn ≠ wOn.isMotorOn ∧ wOn ∈ reduce wL 1 :=
  ⟨by decide, by decide,
    reduce_preserves_transitions wL 1 [] [] wOff wOn (by decide) rfl (by decide)⟩

/-- Claim C3: when the filtered row count is within the budget, `reduce`
takes the `@TotalCount` fast path and returns every input point with all
fields unchanged, ordered by ascending timestamp, never touching the
bucket machinery. -/
theorem reduce_identity_path (l : List MotorLog) (tp : Nat) (h : l.length ≤ tp) :
    reduce l tp = sortByTs l ∧ List.Perm (reduce l tp) l ∧ (reduce l tp).Pairwise tsLE := by
  have he : reduce l tp = sortByTs l := by
    unfold reduce
    exact if_pos h
  refine ⟨he, ?_, ?_⟩
  · rw [he]
    exact sortByTs_perm l
  · rw [he]
    exact sortByTs_sorted l

/-- Witness for C3 at a two-point series and budget 5. -/
theorem reduce_identity_path_witness :
    wL.length ≤ 5 ∧ reduce wL 5 = sortByTs wL :=
  ⟨by decide, (reduce_identity_path wL 5 (by decide)).1⟩

/-- Claim C10: on the downsampling path the chronologically first point
of the series is always in the output: its `PrevState` is the sentinel
`-1`, which no value of `CAST([IsMotorOn] AS INT)` equals, so the
state-change branch of `SelectedIds` picks it unconditionally. -/
theorem reduce_includes_first_point (l : List MotorLog) (tp : Nat) (p : MotorLog)
    (rest : List MotorLog) (hlen : tp < l.length) (hs : sortByTs l = p :: rest) :
    p ∈ reduce l tp := by
  refine (mem_reduce_of_downsampling l tp p hlen).mpr ⟨?_, ?_⟩
  · rw [← mem_sortByTs, hs]
    exact List.mem_cons_self p rest
  · have hmem : (p, (-1 : Int)) ∈ filteredData l := by
      unfold filteredData
      rw [hs]
      exact mem_withPrev_head (-1) p rest
    have hid : p.id ∈ stateChangeIds l := by
      refine List.mem_map.mpr ⟨(p, (-1 : Int)), ?_, rfl⟩
      refine List.mem_filter.mpr ⟨hmem, ?_⟩
      cases hb : p.isMotorOn <;> simp [stateInt, hb]
    unfold selectedIds
    exact List.mem_append_left _ (List.mem_append_left _ (List.mem_append_left _ hid))

/-- Witness for C10 at the two-point series with budget 1. -/
theorem reduce_includes_first_point_witness :
    1 < wL.length ∧ wOff ∈ reduce wL 1 :=
  ⟨by decide, reduce_includes_first_point wL 1 wOff [wOn] (by decide) rfl⟩

/-- Claim C7: with pairwise-distinct row ids (the `PRIMARY KEY` of
`#FilteredData`), the output of `reduce` never repeats an id, is
non-decreasing in timestamp, and on the downsampling path consists
exactly of the series points whose id lies in the `SelectedIds` union of
the bucket selections and the state-change set. -/
theorem reduce_wellFormed (l : List MotorLog) (tp : Nat)
    (hids : (l.map (fun p => p.id)).Nodup) :
    ((reduce l tp).map (fun p => p.id)).Nodup ∧ (reduce l tp).Pairwise tsLE ∧
      (tp < l.length → ∀ p : MotorLog, p ∈ reduce l tp ↔ p ∈ l ∧ p.id ∈ selectedIds l tp) := by
  have hperm : List.Perm ((sortByTs l).map (fun p => p.id)) (l.map (fun p => p.id)) :=
    (sortByTs_perm l).map (fun p => p.id)
  have hsorted : ((sortByTs l).map (fun p => p.id)).Nodup := hperm.nodup_iff.mpr hids
  refine ⟨?_, ?_, fun hlen p => mem_reduce_of_downsampling l tp p hlen⟩
  · unfold reduce
    split
    · exact hsorted
    · exact hsorted.sublist
        (List.Sublist.map (fun p => p.id)
          (List.filter_sublist (sortByTs l) (p := fun p => (selectedIds l tp).contains p.id)))
  · unfold reduce
    split
    · exact sortByTs_sorted l
    · exact (sortByTs_sorted l).filter _

/-- Witness for C7 at the two-point series with budget 1. -/
theorem reduce_wellFormed_witness :
    (wL.map (fun p => p.id)).Nodup ∧ ((reduce wL 1).map (fun p => p.id)).Nodup :=
  ⟨by decide, (reduce_wellFormed wL 1 (by decide)).1⟩

theorem minTs_le_of_mem (l : List MotorLog) (p : MotorLog) (hp : p ∈ l) :
    minTs l ≤ p.timestamp := by
  induction l with
  | nil => cases hp
  | cons q rest ih =>
    cases rest with
    | nil =>
      rcases List.mem_singleton.mp hp with rfl
      simp [minTs]
    | cons r rs =>
      rcases List.mem_cons.mp hp with h | h
      · rw [h]
        exact min_le_left _ _
      · exact le_trans (min_le_right _ _) (ih h)

theorem le_maxTs_of_mem (l : List MotorLog) (p : MotorLog) (hp : p ∈ l) :
    p.timestamp ≤ maxTs l := by
  induction l with
  | nil => cases hp
  | cons q rest ih =>
    cases rest with
    | nil =>
      rcases List.mem_singleton.mp hp with rfl
      simp [maxTs]
    | cons r rs =>
      rcases List.mem_cons.mp hp with h | h
      · rw [h]
        exact le_max_left _ _
      · exact le_trans (ih h) (le_max_right _ _)

theorem durationSeconds_pos (l : List MotorLog) : 0 < durationSeconds l := by
  unfold durationSeconds
  split_ifs with hsp
  · exact one_pos
  · linarith [not_le.mp hsp]

theorem bucketCount_pos (tp : Nat) : 0 < bucketCount tp :=
  lt_of_lt_of_le Nat.one_pos (le_max_left 1 (tp / 3))

/-- Claim C2 is false as stated: the SQL never clamps `BucketId`.  In
the two-point series spanning ten seconds with budget 1 there is one
bucket, yet the point at the maximum timestamp receives bucket index 1 =
`bucketCount`, outside the claimed range `[0, bucketCount)`. -/
theorem bucketId_overflows_bucketCount :
    1 < cexL.length ∧ cexP1 ∈ cexL ∧ bucketCount 1 = 1 ∧ bucketId cexL 1 cexP1 = 1 ∧
      ¬ bucketId cexL 1 cexP1 < bucketCount 1 := by
  have hb : bucketId cexL 1 cexP1 = 1 := by
    norm_num [bucketId, durationSeconds, maxTs, minTs, bucketCount, cexL, cexP0, cexP1, mkLog]
  refine ⟨by decide, by decide, by decide, hb, ?_⟩
  rw [hb]
  decide

/-- Claim C2 (amended): the bucket formula is as claimed but the result
is not clamped; every point's bucket index lies in the closed range
`[0, bucketCount]`, the value `bucketCount` itself being reached by
points at the maximum timestamp of a series of positive span. -/
theorem bucketId_le_bucketCount (l : List MotorLog) (tp : Nat) (p : MotorLog) (hp : p ∈ l) :
    bucketId l tp p ≤ bucketCount tp := by
  have hmin : (minTs l : ℚ) ≤ (p.timestamp : ℚ) := by
    exact_mod_cast minTs_le_of_mem l p hp
  have hmax : (p.timestamp : ℚ) ≤ (maxTs l : ℚ) := by
    exact_mod_cast le_maxTs_of_mem l p hp
  have hdpos : 0 < durationSeconds l := durationSeconds_pos l
  have hnum : (p.timestamp : ℚ) - (minTs l : ℚ) ≤ durationSeconds l := by
    unfold durationSeconds
    split_ifs with hsp
    · linarith
    · linarith
  have hB : (0 : ℚ) < (bucketCount tp : ℚ) := by exact_mod_cast bucketCount_pos tp
  have hdb : 0 < durationSeconds l / (bucketCount tp : ℚ) := div_pos hdpos hB
  have h1 : ((p.timestamp : ℚ) - (minTs l : ℚ)) / (durationSeconds l / (bucketCount tp : ℚ)) ≤
      durationSeconds l / (durationSeconds l / (bucketCount tp : ℚ)) :=
    (div_le_div_iff_of_pos_right hdb).mpr hnum
  have h2 : durationSeconds l / (durationSeconds l / (bucketCount tp : ℚ)) = (bucketCount tp : ℚ) := by
    rw [div_div_eq_mul_div, mul_comm, mul_div_assoc, div_self (ne_of_gt hdpos), mul_one]
  rw [h2] at h1
  unfold bucketId
  refine Int.toNat_le.mpr ?_
  calc ⌊((p.timestamp : ℚ) - (minTs l : ℚ)) / (durationSeconds l / (bucketCount tp : ℚ))⌋
      ≤ ⌊((bucketCount tp : ℕ) : ℚ)⌋ := Int.floor_le_floor h1
    _ = (bucketCount tp : ℤ) := Int.floor_natCast _

/-- Witness for the amended C2 at the two-point series with budget 1. -/
theorem bucketId_le_bucketCount_witness :
    cexP1 ∈ cexL ∧ bucketId cexL 1 cexP1 ≤ bucketCount 1 :=
  ⟨by decide, bucketId_le_bucketCount cexL 1 cexP1 (by decide)⟩

theorem missPath_joined (V : Type) (key : String) (ttl now : Nat) (s : CacheState V)
    (pf : Pending) (h : s.inFlight key = some pf) :
    missPath V key ttl now s = (s, GetResult.joined pf.id) := by
  unfold missPath
  rw [h]

theorem missPath_launched (V : Type) (key : String) (ttl now : Nat) (s : CacheState V)
    (h : s.inFlight key = none) :
    missPath V key ttl now s = (launchState V key ttl now s, GetResult.launched s.nextId) := by
  unfold missPath
  rw [h]

theorem getStep_fresh (V : Type) (key : String) (ttl now : Nat) (s : CacheState V) (e : Entry V)
    (hc : s.cache key = some e) (hlt : now < e.expires) :
    getStep V key ttl now s = (s, GetResult.cachedValue e.value) := by
  unfold getStep
  rw [hc]
  simp [hlt]

theorem getStep_of_not_fresh (V : Type) (key : String) (ttl now : Nat) (s : CacheState V)
    (h : freshValue V s key now = none) :
    getStep V key ttl now s = missPath V key ttl now s := by
  unfold getStep
  unfold freshValue at h
  cases hc : s.cache key with
  | none => rfl
  | some e =>
    rw [hc] at h
    by_cases hlt : now < e.expires
    · simp [hlt] at h
    · simp [hlt]

theorem freshValue_launchState (V : Type) (key : String) (ttl now : Nat) (k : String)
    (t : Nat) (s : CacheState V) :
    freshValue V (launchState V key ttl now s) k t = freshValue V s k t := rfl

theorem launchState_inFlight_self (V : Type) (key : String) (ttl now : Nat) (s : CacheState V) :
    (launchState V key ttl now s).inFlight key = some ⟨s.nextId, now + ttl⟩ := by
  simp [launchState]

theorem runGets_all_joined (V : Type) (key : String) (ttl now : Nat) (n : Nat)
    (s : CacheState V) (pf : Pending) (hf : freshValue V s key now = none)
    (hi : s.inFlight key = some pf) :
    runGets V key ttl now n s = (s, List.replicate n (GetResult.joined pf.id)) := by
  induction n with
  | zero => simp [runGets]
  | succ m ih =>
    have hg : getStep V key ttl now s = (s, GetResult.joined pf.id) :=
      (getStep_of_not_fresh V key ttl now s hf).trans (missPath_joined V key ttl now s pf hi)
    simp [runGets, hg, ih, List.replicate_succ]

/-- Claim C4 (single flight): a `getCached` call finding no fresh entry
but an in-flight fetch for its key joins that fetch, changes nothing and
invokes no fetcher; consequently `n ≥ 1` concurrent calls for an
absent or stale key invoke the fetcher exactly once, all of them bound
to the one launched promise. -/
theorem getCached_single_flight (V : Type) :
    (∀ (s : CacheState V) (key : String) (ttl now : Nat) (pf : Pending),
        freshValue V s key now = none → s.inFlight key = some pf →
        getStep V key ttl now s = (s, GetResult.joined pf.id)) ∧
    (∀ (s : CacheState V) (key : String) (ttl now n : Nat),
        freshValue V s key now = none → s.inFlight key = none → 1 ≤ n →
        (runGets V key ttl now n s).1.fetchCount = s.fetchCount + 1 ∧
        (runGets V key ttl now n s).2 =
          GetResult.launched s.nextId :: List.replicate (n - 1) (GetResult.joined s.nextId)) := by
  constructor
  · intro s key ttl now pf hf hi
    exact (getStep_of_not_fresh V key ttl now s hf).trans (missPath_joined V key ttl now s pf hi)
  · intro s key ttl now n hf hi hn
    obtain ⟨m, rfl⟩ : ∃ m, n = m + 1 := ⟨n - 1, (Nat.succ_pred_eq_of_pos hn).symm⟩
    have hg : getStep V key ttl now s = (launchState V key ttl now s, GetResult.launched s.nextId) :=
      (getStep_of_not_fresh V key ttl now s hf).trans (missPath_launched V key ttl now s hi)
    have hrest := runGets_all_joined V key ttl now m (launchState V key ttl now s)
      ⟨s.nextId, now + ttl⟩ hf (launchState_inFlight_self V key ttl now s)
    have hall : runGets V key ttl now (m + 1) s =
        (launchState V key ttl now s,
          GetResult.launched s.nextId :: List.replicate m (GetResult.joined s.nextId)) := by
      simp [runGets, hg, hrest]
    constructor
    · rw [hall]
      rfl
    · rw [hall]
      simp

/-- Witness for C4: three concurrent calls on the empty cache launch one
fetch and the later two join promise 0; a call while promise 0 is in
flight joins it without touching the state. -/
theorem getCached_single_flight_witness :
    getStep Nat "k" 10 5 c4s1 = (c4s1, GetResult.joined 0) ∧
    (runGets Nat "k" 10 5 3 (emptyCache Nat)).1.fetchCount = 1 ∧
    (runGets Nat "k" 10 5 3 (emptyCache Nat)).2 =
      [GetResult.launched 0, GetResult.joined 0, GetResult.joined 0] := by
  refine ⟨?_, ?_, ?_⟩
  · exact (getCached_single_flight Nat).1 c4s1 "k" 10 5 ⟨0, 15⟩ rfl (by decide)
  · have h := (getCached_single_flight Nat).2 (emptyCache Nat) "k" 10 5 3 rfl rfl (by decide)
    simpa [emptyCache] using h.1
  · have h := (getCached_single_flight Nat).2 (emptyCache Nat) "k" 10 5 3 rfl rfl (by decide)
    simpa [emptyCache] using h.2

/-- Claim C5 (TTL semantics): a call at `now` strictly before the stored
expiry returns the cached value and changes nothing, invoking no
fetcher; a call at or after the expiry with no fetch in flight launches
a new fetch, incrementing the fetcher invocation count. -/
theorem getCached_ttl_semantics (V : Type) :
    (∀ (s : CacheState V) (key : String) (ttl now : Nat) (e : Entry V),
        s.cache key = some e → now < e.expires →
        getStep V key ttl now s = (s, GetResult.cachedValue e.value)) ∧
    (∀ (s : CacheState V) (key : String) (ttl now : Nat) (e : Entry V),
        s.cache key = some e → e.expires ≤ now → s.inFlight key = none →
        getStep V key ttl now s = (launchState V key ttl now s, GetResult.launched s.nextId) ∧
        (getStep V key ttl now s).1.fetchCount = s.fetchCount + 1) := by
  constructor
  · exact fun s key ttl now e hc hlt => getStep_fresh V key ttl now s e hc hlt
  · intro s key ttl now e hc hexp hi
    have hf : freshValue V s key now = none := by
      unfold freshValue
      rw [hc]
      simp [Nat.not_lt.mpr hexp]
    have hg : getStep V key ttl now s = (launchState V key ttl now s, GetResult.launched s.nextId) :=
      (getStep_of_not_fresh V key ttl now s hf).trans (missPath_launched V key ttl now s hi)
    exact ⟨hg, by rw [hg]; rfl⟩

/-- Witness for C5, the spec scenario with the clock at T = 1000 and a
60-second TTL: the fetch at T stores an entry expiring at 1060; the call
at T + 30 is served from cache with no new fetch; the call at T + 61
launches a second fetch. -/
theorem getCached_ttl_semantics_witness :
    c5s2.fetchCount = 1 ∧
    getStep Nat "zones" 60 1030 c5s2 = (c5s2, GetResult.cachedValue 7) ∧
    (getStep Nat "zones" 60 1061 c5s2).2 = GetResult.launched c5s2.nextId ∧
    (getStep Nat "zones" 60 1061 c5s2).1.fetchCount = 2 := by
  refine ⟨by decide, ?_, ?_, ?_⟩
  · exact (getCached_ttl_semantics Nat).1 c5s2 "zones" 60 1030 ⟨7, 1060⟩ (by decide) (by decide)
  · have h := (getCached_ttl_semantics Nat).2 c5s2 "zones" 60 1061 ⟨7, 1060⟩
      (by decide) (by decide) (by decide)
    rw [h.1]
  · have h := (getCached_ttl_semantics Nat).2 c5s2 "zones" 60 1061 ⟨7, 1060⟩
      (by decide) (by decide) (by decide)
    exact h.2

/-- Claim C6 (failed fetch never cached): when the fetch for a key
fails, the entry map is untouched at every key, the pending fetch is
removed, the failure is the outcome delivered to that promise's waiters,
and a subsequent call for the still absent-or-stale key launches a brand
new fetch. -/
theorem getCached_failure_not_cached (V : Type) (s : CacheState V) (key : String)
    (pf : Pending) (ttl now : Nat) (hi : s.inFlight key = some pf) :
    (∀ k, (completeStep V key FetchOutcome.failure s).1.cache k = s.cache k) ∧
    (completeStep V key FetchOutcome.failure s).1.inFlight key = none ∧
    (completeStep V key FetchOutcome.failure s).2 = [(pf.id, FetchOutcome.failure)] ∧
    (freshValue V s key now = none →
      (getStep V key ttl now (completeStep V key FetchOutcome.failure s).1).2 =
        GetResult.launched s.nextId ∧
      (getStep V key ttl now (completeStep V key FetchOutcome.failure s).1).1.fetchCount =
        s.fetchCount + 1) := by
  have hstep : completeStep V key FetchOutcome.failure s =
      ({ cache := fun k => if k = key then s.cache k else s.cache k,
         inFlight := fun k => if k = key then none else s.inFlight k,
         nextId := s.nextId, fetchCount := s.fetchCount },
       [(pf.id, FetchOutcome.failure)]) := by
    unfold completeStep
    rw [hi]
  have hcache : ∀ k, (completeStep V key FetchOutcome.failure s).1.cache k = s.cache k := by
    intro k
    rw [hstep]
    by_cases hk : k = key <;> simp [hk]
  have hinf : (completeStep V key FetchOutcome.failure s).1.inFlight key = none := by
    rw [hstep]
    simp
  refine ⟨hcache, hinf, by rw [hstep], ?_⟩
  intro hf
  have hf' : freshValue V (completeStep V key FetchOutcome.failure s).1 key now = none := by
    unfold freshValue at hf ⊢
    rw [hcache key]
    exact hf
  have hg : getStep V key ttl now (completeStep V key FetchOutcome.failure s).1 =
      (launchState V key ttl now (completeStep V key FetchOutcome.failure s).1,
        GetResult.launched (completeStep V key FetchOutcome.failure s).1.nextId) :=
    (getStep_of_not_fresh V key ttl now _ hf').trans (missPath_launched V key ttl now _ hinf)
  have hnext : (completeStep V key FetchOutcome.failure s).1.nextId = s.nextId := by
    rw [hstep]
  have hcount : (completeStep V key FetchOutcome.failure s).1.fetchCount = s.fetchCount := by
    rw [hstep]
  constructor
  · rw [hg, hnext]
  · rw [hg]
    simp [launchState, hcount]

/-- Witness for C6: the fetch for key `w` fails; nothing is cached, the
failure is delivered to promise 0, and the next call launches fetch
number two. -/
theorem getCached_failure_not_cached_witness :
    (completeStep Nat "w" FetchOutcome.failure c6s1).1.cache "w" = none ∧
    (completeStep Nat "w" FetchOutcome.failure c6s1).2 = [(0, FetchOutcome.failure)] ∧
    (getStep Nat "w" 60 200 (completeStep Nat "w" FetchOutcome.failure c6s1).1).1.fetchCount = 2 := by
  have h := getCached_failure_not_cached Nat c6s1 "w" ⟨0, 160⟩ 60 200 (by decide)
  refine ⟨?_, h.2.2.1, ?_⟩
  · rw [h.1 "w"]
    rfl
  · exact (h.2.2.2 rfl).2

/-- Claim C8 is false as stated: a negative `limit` with a valid
identity is not rejected as an invalid argument; the handler silently
clamps it, answering the budget 100 instead of any error. -/
theorem motorLogs_clamps_negative_limit :
    motorLogsAdmission c8q = Except.ok 100 ∧
      ∀ msg : String, motorLogsAdmission c8q ≠ Except.error msg := by
  constructor
  · rfl
  · intro msg h
    rw [show motorLogsAdmission c8q = Except.ok 100 from rfl] at h
    exact Except.noConfusion h

/-- Claim C8 (amended): a `limit` below 1 with a valid identity is never
rejected; the handler proceeds and clamps the budget, `0` (like an
absent or non-numeric limit) falling back to the default 5000 and a
negative value clamping up to the floor 100. -/
theorem motorLogsAdmission_clamps (q : MotorLogsQueryParams) (z ln m : String) (v : Int)
    (hz : q.zone = some z) (hl : q.line = some ln) (hm : q.motor = some m)
    (hlim : q.limit = some v) (hv : v < 1) :
    motorLogsAdmission q = Except.ok (if v = 0 then 5000 else 100) := by
  unfold motorLogsAdmission targetPointsOf
  rw [hz, hl, hm, hlim]
  simp only [Option.isNone_some, Bool.or_self, Bool.false_eq_true, if_false]
  split_ifs with h0
  · norm_num
  · congr 1
    omega

/-- Witness for the amended C8: limit -5 with a valid identity yields
the clamped budget 100. -/
theorem motorLogsAdmission_clamps_witness :
    (-5 : Int) < 1 ∧ motorLogsAdmission c8q = Except.ok 100 :=
  ⟨by decide, by
    simpa using motorLogsAdmission_clamps c8q "Z1" "L1" "M1" (-5) rfl rfl rfl rfl (by decide)⟩

/-- Claim C9 is false as stated: the `motor-logs-latest` filter has no
upper time bound, so a row stamped after `now` is returned; here a row
five seconds in the future of `now = 100` survives the 60-second
window. -/
theorem selectWindow_keeps_future_points :
    lateLog ∈ selectWindow [lateLog] 100 60 ∧ ¬ ((lateLog.timestamp : Int) ≤ 100) := by
  constructor
  · decide
  · decide

/-- Claim C9 (amended): `selectWindow` returns exactly the points with
timestamp at least `now` minus the window — with no upper bound, so
points after `now` are included — in ascending timestamp order,
otherwise unmodified. -/
theorem selectWindow_spec (rows : List MotorLog) (now w : Int) :
    (∀ p : MotorLog, p ∈ selectWindow rows now w ↔ p ∈ rows ∧ now - w ≤ (p.timestamp : Int)) ∧
      (selectWindow rows now w).Pairwise tsLE := by
  constructor
  · intro p
    unfold selectWindow
    rw [mem_sortByTs]
    simp [List.mem_filter]
  · exact sortByTs_sorted _

/-- Witness for the amended C9 at a singleton series and window
`[40, no upper bound)` anchored at 100. -/
theorem selectWindow_spec_witness :
    lateLog ∈ [lateLog] ∧ (100 : Int) - 60 ≤ (lateLog.timestamp : Int) ∧
      lateLog ∈ selectWindow [lateLog] 100 60 :=
  ⟨by decide, by decide,
    ((selectWindow_spec [lateLog] 100 60).1 lateLog).mpr ⟨by decide, by decide⟩⟩
